import Mathlib

/-!
Verification of the kneaddata database-generation orchestrator.

This file gives a shallow embedding of `src/generate_db.py` (the
database-generation orchestrator) and of the helper functions
`get_file_format`, `is_file_fastq`, `find_exe_in_path` and
`find_dependency` from `src/kneaddata/utilities.py`, and proves or
refutes the specification claims about them.

The filesystem is modelled as a predicate `String → Bool` (the set of
existing paths); subprocess execution is modelled as an oracle
`String → Int` mapping a command string to its exit status.  The
orchestrator never inspects the oracle's answers (the thread class in the
source discards the return value of `subprocess.call`), which is exactly
the audited failure semantics.
-/

/-- The three external tools orchestrated by `generate_db.py`. -/
inductive Tool where
  | bmtool
  | srprism
  | makeblastdb
deriving DecidableEq, Repr

/-- Observable scheduling events of one run of the orchestrator:
a worker thread being started for a tool, and that worker being joined. -/
inductive Event where
  | start (t : Tool)
  | join (t : Tool)
deriving DecidableEq, Repr

/-- Parsed command-line arguments of `generate_db.py` (lines 38-52).
`opfx` is the value of `--output-prefix` (`None` when omitted); the three
tool paths default to the bare executable names. -/
structure Args where
  fasta : String
  opfx : Option String
  bmtoolPath : String
  srprismPath : String
  makeblastdbPath : String
deriving DecidableEq, Repr

/-- Observable outcome of one run of `main` in `generate_db.py`:
everything printed, the tools whose worker threads were started (in start
order), the command strings they were started with, each launched
command's subprocess result, the workers joined at the end, the
start/join event trace, and the process exit status. -/
structure RunResult where
  printed : List String
  launched : List Tool
  cmds : List String
  results : List (String × Int)
  joined : List Tool
  trace : List Event
  exitCode : Nat
deriving DecidableEq, Repr

/-- Lines 55-56 of `generate_db.py`: `if not args.output_prefix:
args.output_prefix = args.fasta`.  A missing or empty (falsy) prefix is
replaced by the input file path. -/
def resolvePfx (opfx : Option String) (fasta : String) : String :=
  match opfx with
  | none => fasta
  | some p => if p = "" then fasta else p

/-- Line 96 of `generate_db.py`: the nine srprism index extensions. -/
def srprismExt : List String :=
  [".amp", ".idx", ".imp", ".map", ".pmp", ".rmp", ".ss", ".ssa", ".ssd"]

/-- Line 98 of `generate_db.py`: the srprism artifact paths checked. -/
def srprismFiles (pfx : String) : List String :=
  srprismExt.map (fun x => pfx ++ ".srprism" ++ x)

/-- Line 129 of `generate_db.py`: `blastdb_ext = ["nhr", "nin", "nsq"]`.
This list is defined in the source but never used by the check on
line 131. -/
def blastdbExt : List String := ["nhr", "nin", "nsq"]

/-- Line 131 of `generate_db.py`: `blastdb_files = map(lambda x:
str(args.output_prefix + x), srprism_ext)` — the source maps over
`srprism_ext`, not `blastdb_ext`, so the makeblastdb check looks for
`<pfx>.amp`, ..., `<pfx>.ssd`. -/
def blastdbFiles (pfx : String) : List String :=
  srprismExt.map (fun x => pfx ++ x)

/-- Line 77 of `generate_db.py`: bmtool runs iff `<pfx>.bitmask` is
missing. -/
def runBmtool (pfx : String) (fs : String → Bool) : Bool :=
  !(fs (pfx ++ ".bitmask"))

/-- Lines 104-109 of `generate_db.py`: srprism runs iff at least one of
its nine artifact paths is missing. -/
def runSrprism (pfx : String) (fs : String → Bool) : Bool :=
  (srprismFiles pfx).any (fun f => !(fs f))

/-- Lines 136-141 of `generate_db.py`: makeblastdb runs iff at least one
of the paths produced by line 131 is missing. -/
def runBlastdb (pfx : String) (fs : String → Bool) : Bool :=
  (blastdbFiles pfx).any (fun f => !(fs f))

/-- Lines 79-80 of `generate_db.py`: the bmtool command string. -/
def bmCmdStr (bmtoolPath fasta pfx : String) : String :=
  bmtoolPath ++ " -d " ++ fasta ++ " -o " ++ pfx ++ ".bitmask -A 0 -z -w 18"

/-- Lines 113-114 of `generate_db.py`: the srprism command string. -/
def srCmdStr (srprismPath fasta pfx : String) : String :=
  srprismPath ++ " mkindex -i " ++ fasta ++ " -o " ++ pfx ++ ".srprism -M 7168"

/-- Lines 145-146 of `generate_db.py`: the makeblastdb command string. -/
def blCmdStr (makeblastdbPath fasta pfx : String) : String :=
  makeblastdbPath ++ " -in " ++ fasta ++ " -dbtype nucl -out " ++ pfx

/-- Lines 16-22 of `generate_db.py`: the message printed by `exists`
when a tool is skipped. -/
def existsMsg (s : String) : String :=
  "The output files for " ++ s ++ " already exist! Moving on..."

/-- Printed representation of a Python 2 list of strings, as produced by
the `print(srprism_files)` and `print(blastdb_files)` statements. -/
def listRepr (l : List String) : String :=
  "[" ++ String.intercalate ", " (l.map fun s => "'" ++ s ++ "'") ++ "]"

/-- Lines 73-183 of `generate_db.py` after the pre-flight check: decide
each tool's check, start a worker thread for each scheduled tool in
definition order (bmtool, srprism, makeblastdb), collect each launched
command's subprocess result, and join every started worker. -/
def runCore (fasta bmtoolPath srprismPath makeblastdbPath pfx : String)
    (fs : String → Bool) (exec : String → Int) : RunResult :=
  let bmRun := runBmtool pfx fs
  let srRun := runSrprism pfx fs
  let blRun := runBlastdb pfx fs
  let bmCmd := bmCmdStr bmtoolPath fasta pfx
  let srCmd := srCmdStr srprismPath fasta pfx
  let blCmd := blCmdStr makeblastdbPath fasta pfx
  let printed :=
    (if bmRun then
      ["Running bmtool!", "The following bmtool command will be run:", bmCmd]
     else [existsMsg "bmtool"])
    ++ ["Checking for the following files:", listRepr (srprismFiles pfx)]
    ++ (if srRun then
      ["Running srprism!", "The following srprism command will be run:", srCmd]
     else [existsMsg "srprism"])
    ++ ["Checking for the following files:", listRepr (blastdbFiles pfx)]
    ++ (if blRun then
      ["Running makeblastdb!",
       "The following makeblastdb command will be run:", blCmd]
     else [existsMsg "makeblastdb"])
  let launched :=
    (if bmRun then [Tool.bmtool] else [])
    ++ (if srRun then [Tool.srprism] else [])
    ++ (if blRun then [Tool.makeblastdb] else [])
  let cmds :=
    (if bmRun then [bmCmd] else [])
    ++ (if srRun then [srCmd] else [])
    ++ (if blRun then [blCmd] else [])
  { printed := printed
    launched := launched
    cmds := cmds
    results := cmds.map (fun c => (c, exec c))
    joined := launched
    trace := launched.map Event.start ++ launched.map Event.join
    exitCode := 0 }

/-- The `main` function of `generate_db.py`: resolve the output prefix
(lines 55-56), run the pre-flight existence check on the input FASTA file
only (lines 61-66, printing the two abort messages and exiting with
status 1 on failure), then schedule, launch and join the three tool
tasks. -/
def mainRun (args : Args) (fs : String → Bool) (exec : String → Int) :
    RunResult :=
  let pfx := resolvePfx args.opfx args.fasta
  if fs args.fasta then
    runCore args.fasta args.bmtoolPath args.srprismPath args.makeblastdbPath
      pfx fs exec
  else
    { printed := ["Could not find file " ++ args.fasta, "Aborting... "]
      launched := []
      cmds := []
      results := []
      joined := []
      trace := []
      exitCode := 1 }

/-- Modelled from the spec: the persisted artifact table of §6 lists what
the three external tools themselves write (`<pfx>.bitmask`, the nine
`<pfx>.srprism.*` files, and `<pfx>.{nhr,nin,nsq}`).  The tools are
external binaries, not code under `src/`, so their outputs are taken
from the spec's artifact naming contract. -/
def fullArtifacts (pfx : String) : List String :=
  (pfx ++ ".bitmask") :: srprismFiles pfx
    ++ [pfx ++ ".nhr", pfx ++ ".nin", pfx ++ ".nsq"]

/-- Translation of the regex test `re.search("^@", line)` (and `"^>"`)
from `get_file_format`: with an anchored single-character pattern the
search succeeds iff the first character of the line is that character. -/
def startsWithChar (s : String) (c : Char) : Bool :=
  s.data.head? = some c

/-- Character class `[A-Z|a-z]` of the regex on line 125 of
`src/kneaddata/utilities.py`: upper-case letters, lower-case letters and
the literal bar character. -/
def inSecondLineClass (c : Char) : Bool :=
  ('A' ≤ c && c ≤ 'Z') || c = '|' || ('a' ≤ c && c ≤ 'z')

/-- Translation of `re.search("^[A-Z|a-z]+$", second_line)`: without
`re.MULTILINE` the `$` anchor matches at the end of the string or just
before one final newline, so the search succeeds iff the line with one
trailing newline removed is nonempty and consists only of class
characters. -/
def secondLineMatches (s : String) : Bool :=
  let t := if s.data.getLast? = some '\n' then s.data.dropLast else s.data
  !t.isEmpty && t.all inSecondLineClass

/-- Lines 95-132 of `src/kneaddata/utilities.py`, `get_file_format`.
Reading the file is modelled by its observable outcome: `none` when
opening or reading raises `EnvironmentError`, otherwise `some` of the
first two lines.  On a successful read the format is decided by the
second-line regex and then the two first-line regex checks (the `^>` check
runs after and overrides the `^@` check, as in the source). -/
def getFileFormat (r : Option (String × String)) : String :=
  match r with
  | none => "unknown"
  | some (l1, l2) =>
    if secondLineMatches l2 then
      let f1 := if startsWithChar l1 '@' then "fastq" else "unknown"
      if startsWithChar l1 '>' then "fasta" else f1
    else "unknown"

/-- Lines 134-140 of `src/kneaddata/utilities.py`, `is_file_fastq`. -/
def isFileFastq (r : Option (String × String)) : Bool :=
  if getFileFormat r = "fastq" then true else false

lemma startsWithChar_ne {s : String} {c d : Char} (hcd : c ≠ d)
    (h : startsWithChar s c = true) : startsWithChar s d = false := by
  revert h
  unfold startsWithChar
  rcases s.data with _ | ⟨e, rest⟩
  · intro h
    simp at h
  · intro h
    simp only [List.head?_cons, Option.some.injEq, decide_eq_true_eq] at h
    subst h
    simp [hcd]

/-- C10: `get_file_format` always returns one of `"fasta"`, `"fastq"`,
`"unknown"`; it returns `"unknown"` whenever the file cannot be opened or
its first two lines cannot be read; it classifies `"fastq"` exactly when
the second line consists solely of letters or bars and the first line
starts with `'@'`, and `"fasta"` exactly when it starts with `'>'`; and
`is_file_fastq` holds iff the format is `"fastq"`. -/
theorem c10_get_file_format (r : Option (String × String)) (l1 l2 : String) :
    (getFileFormat r = "fasta" ∨ getFileFormat r = "fastq"
      ∨ getFileFormat r = "unknown")
    ∧ getFileFormat none = "unknown"
    ∧ (getFileFormat (some (l1, l2)) = "fastq" ↔
        secondLineMatches l2 = true ∧ startsWithChar l1 '@' = true)
    ∧ (getFileFormat (some (l1, l2)) = "fasta" ↔
        secondLineMatches l2 = true ∧ startsWithChar l1 '>' = true)
    ∧ (isFileFastq r = true ↔ getFileFormat r = "fastq") := by
  refine ⟨?_, rfl, ?_, ?_, ?_⟩
  · rcases r with _ | ⟨a, b⟩
    · simp [getFileFormat]
    · by_cases hm : secondLineMatches b <;>
        by_cases hgt : startsWithChar a '>' <;>
        by_cases hat : startsWithChar a '@' <;>
        simp [getFileFormat, hm, hgt, hat]
  · constructor
    · intro h
      by_cases hm : secondLineMatches l2
      · by_cases hgt : startsWithChar l1 '>'
        · simp [getFileFormat, hm, hgt] at h
        · by_cases hat : startsWithChar l1 '@'
          · exact ⟨hm, hat⟩
          · simp [getFileFormat, hm, hgt, hat] at h
      · simp [getFileFormat, hm] at h
    · rintro ⟨hm, hat⟩
      have hgt : startsWithChar l1 '>' = false :=
        startsWithChar_ne (by decide) hat
      simp [getFileFormat, hm, hat, hgt]
  · constructor
    · intro h
      by_cases hm : secondLineMatches l2
      · by_cases hgt : startsWithChar l1 '>'
        · exact ⟨hm, hgt⟩
        · by_cases hat : startsWithChar l1 '@' <;>
            simp [getFileFormat, hm, hgt, hat] at h
      · simp [getFileFormat, hm] at h
    · rintro ⟨hm, hgt⟩
      simp [getFileFormat, hm, hgt]
  · unfold isFileFastq
    by_cases h : getFileFormat r = "fastq" <;> simp [h]

/-- Subprocess oracle in which every command succeeds. -/
def zeroExec : String → Int := fun _ => 0

/-- Filesystem for the C1 failing input: the input FASTA file and exactly
the three expected makeblastdb artifacts `out.nhr`, `out.nin`, `out.nsq`
exist. -/
def c1Fs : String → Bool := fun s =>
  ["ref.fasta", "out.nhr", "out.nin", "out.nsq"].contains s

/-- C1 (refuted as stated): on a filesystem where all three expected
makeblastdb artifacts `out.nhr`, `out.nin`, `out.nsq` exist, the
orchestrator nevertheless schedules makeblastdb, because line 131 of
`generate_db.py` builds the check list from `srprism_ext` instead of
`blastdb_ext` and therefore looks for `out.amp`, ..., `out.ssd`.  The
list of paths the check actually enumerates is the nine-element
`blastdbFiles "out"`, not the three-element artifact set. -/
theorem c1_blastdb_check_bug :
    (∀ f ∈ [("out.nhr" : String), "out.nin", "out.nsq"], c1Fs f = true)
    ∧ Tool.makeblastdb ∈
        (mainRun ⟨"ref.fasta", some "out", "bmtool", "srprism",
          "makeblastdb"⟩ c1Fs zeroExec).launched
    ∧ blastdbFiles "out" =
        ["out.amp", "out.idx", "out.imp", "out.map", "out.pmp", "out.rmp",
         "out.ss", "out.ssa", "out.ssd"] := by
  refine ⟨by decide, ?_, by decide⟩
  decide

/-- Filesystem for the C2 failing input: the input FASTA file plus every
artifact a complete run of all three tools writes for prefix `out`. -/
def c2Fs : String → Bool := fun s =>
  ("ref.fasta" :: fullArtifacts "out").contains s

/-- C2 (refuted as stated): after a complete run has produced every
artifact of every tool for prefix `out`, a second run still launches a
subprocess — exactly makeblastdb — because its existence check looks for
`out.amp`, ..., `out.ssd` (line 131 bug) instead of the blast database
artifacts. -/
theorem c2_idempotence_bug :
    (∀ a ∈ fullArtifacts "out", c2Fs a = true)
    ∧ (mainRun ⟨"ref.fasta", some "out", "bmtool", "srprism",
        "makeblastdb"⟩ c2Fs zeroExec).launched = [Tool.makeblastdb] := by
  refine ⟨by decide, ?_⟩
  decide

/-- C3: srprism is scheduled iff at least one of its nine artifact paths
is missing, and skipped only when all nine exist. -/
theorem c3_srprism_schedule (args : Args) (fs : String → Bool)
    (exec : String → Int) (h : fs args.fasta = true) :
    Tool.srprism ∈ (mainRun args fs exec).launched ↔
      ∃ f ∈ srprismFiles (resolvePfx args.opfx args.fasta), fs f = false := by
  have hiff : runSrprism (resolvePfx args.opfx args.fasta) fs = true ↔
      ∃ f ∈ srprismFiles (resolvePfx args.opfx args.fasta), fs f = false := by
    simp [runSrprism, List.any_eq_true]
  rw [← hiff]
  simp only [mainRun, h, if_true, runCore]
  by_cases hb : runBmtool (resolvePfx args.opfx args.fasta) fs <;>
    by_cases hs : runSrprism (resolvePfx args.opfx args.fasta) fs <;>
    by_cases hbl : runBlastdb (resolvePfx args.opfx args.fasta) fs <;>
    simp [hb, hs, hbl]

/-- Filesystem for the C3 witness: the input FASTA file and eight of the
nine srprism artifacts exist (`out.srprism.ssd` is missing). -/
def c3Fs : String → Bool := fun s =>
  ("ref.fasta" :: (srprismFiles "out").take 8).contains s

/-- Witness for C3: with eight of the nine srprism artifacts present,
the srprism task still runs. -/
theorem c3_srprism_schedule_witness :
    c3Fs "ref.fasta" = true
    ∧ Tool.srprism ∈ (mainRun ⟨"ref.fasta", some "out", "bmtool",
        "srprism", "makeblastdb"⟩ c3Fs zeroExec).launched :=
  ⟨by decide,
    (c3_srprism_schedule _ c3Fs zeroExec (by decide)).mpr
      ⟨"out.srprism.ssd", by decide, by decide⟩⟩

/-- C5 (amended part, proved): if the required input FASTA file does not
exist, the orchestrator prints a message naming the missing path, exits
with status 1, and launches zero subprocesses. -/
theorem c5_missing_input_aborts (args : Args) (fs : String → Bool)
    (exec : String → Int) (h : fs args.fasta = false) :
    (mainRun args fs exec).exitCode = 1
    ∧ (mainRun args fs exec).launched = []
    ∧ (mainRun args fs exec).results = []
    ∧ (mainRun args fs exec).printed =
        ["Could not find file " ++ args.fasta, "Aborting... "] := by
  simp [mainRun, h]

/-- Filesystem in which only the input FASTA file exists. -/
def refOnlyFs : String → Bool := fun s => s = "ref.fasta"

/-- Witness for the amended C5: a run on an empty filesystem aborts with
exit status 1 and no launches. -/
theorem c5_missing_input_aborts_witness :
    (fun _ => false : String → Bool) "missing.fasta" = false
    ∧ (mainRun ⟨"missing.fasta", none, "bmtool", "srprism",
        "makeblastdb"⟩ (fun _ => false) zeroExec).exitCode = 1
    ∧ (mainRun ⟨"missing.fasta", none, "bmtool", "srprism",
        "makeblastdb"⟩ (fun _ => false) zeroExec).launched = []
    ∧ (mainRun ⟨"missing.fasta", none, "bmtool", "srprism",
        "makeblastdb"⟩ (fun _ => false) zeroExec).results = []
    ∧ (mainRun ⟨"missing.fasta", none, "bmtool", "srprism",
        "makeblastdb"⟩ (fun _ => false) zeroExec).printed =
        ["Could not find file " ++ "missing.fasta", "Aborting... "] :=
  ⟨rfl,
    (c5_missing_input_aborts ⟨"missing.fasta", none, "bmtool", "srprism",
      "makeblastdb"⟩ (fun _ => false) zeroExec rfl).1,
    (c5_missing_input_aborts ⟨"missing.fasta", none, "bmtool", "srprism",
      "makeblastdb"⟩ (fun _ => false) zeroExec rfl).2.1,
    (c5_missing_input_aborts ⟨"missing.fasta", none, "bmtool", "srprism",
      "makeblastdb"⟩ (fun _ => false) zeroExec rfl).2.2.1,
    (c5_missing_input_aborts ⟨"missing.fasta", none, "bmtool", "srprism",
      "makeblastdb"⟩ (fun _ => false) zeroExec rfl).2.2.2⟩

/-- C5 (refuted part): a nonexistent user-specified tool path does not
make the orchestrator abort — with the input file present and a bmtool
path that exists nowhere on the filesystem, the run still launches tasks
and exits with status 0 (the commented-out block at lines 59-60 of
`generate_db.py` is the removed tool-path check). -/
theorem c5_tool_path_not_checked :
    refOnlyFs "/no/such/bmtool" = false
    ∧ (mainRun ⟨"ref.fasta", some "out", "/no/such/bmtool", "srprism",
        "makeblastdb"⟩ refOnlyFs zeroExec).exitCode = 0
    ∧ (mainRun ⟨"ref.fasta", some "out", "/no/such/bmtool", "srprism",
        "makeblastdb"⟩ refOnlyFs zeroExec).launched ≠ [] := by
  refine ⟨by decide, by decide, by decide⟩

/-- Subprocess oracle in which every command fails with exit status 1. -/
def oneExec : String → Int := fun _ => 1

set_option maxRecDepth 8192 in
/-- C6 (refuted part): in a run where every launched subprocess exits
with status 1, the printed output is identical to the printed output of a
run in which every subprocess succeeds — so the non-zero exits are not
logged anywhere — and the orchestrator still exits with status 0.  The
worker thread `run` method (lines 30-31 of `generate_db.py`) assigns the
result of `subprocess.call` to a local and never reads it. -/
theorem c6_failure_not_logged :
    (mainRun ⟨"ref.fasta", some "out", "bmtool", "srprism",
        "makeblastdb"⟩ refOnlyFs oneExec).printed =
      (mainRun ⟨"ref.fasta", some "out", "bmtool", "srprism",
        "makeblastdb"⟩ refOnlyFs zeroExec).printed
    ∧ (mainRun ⟨"ref.fasta", some "out", "bmtool", "srprism",
        "makeblastdb"⟩ refOnlyFs oneExec).exitCode = 0
    ∧ (mainRun ⟨"ref.fasta", some "out", "bmtool", "srprism",
        "makeblastdb"⟩ refOnlyFs oneExec).results.any
        (fun p => p.2 ≠ 0) = true := by
  refine ⟨by decide, by decide, by decide⟩

/-- C6 (amended, proved): for any subprocess oracle, a run that passes
the pre-flight check prints exactly what an all-success run prints (a
non-zero exit is never logged), joins every launched worker (no sibling
is aborted and every launched command's result is collected), and exits
with status 0. -/
theorem c6_amended_failure_semantics (args : Args) (fs : String → Bool)
    (exec : String → Int) (h : fs args.fasta = true) :
    (mainRun args fs exec).exitCode = 0
    ∧ (mainRun args fs exec).printed = (mainRun args fs zeroExec).printed
    ∧ (mainRun args fs exec).joined = (mainRun args fs exec).launched
    ∧ (mainRun args fs exec).results =
        (mainRun args fs exec).cmds.map (fun c => (c, exec c)) := by
  simp [mainRun, h, runCore]

/-- Witness for the amended C6: concrete run with a failing oracle. -/
theorem c6_amended_failure_semantics_witness :
    refOnlyFs "ref.fasta" = true
    ∧ ((mainRun ⟨"ref.fasta", some "out", "bmtool", "srprism",
          "makeblastdb"⟩ refOnlyFs oneExec).exitCode = 0
      ∧ (mainRun ⟨"ref.fasta", some "out", "bmtool", "srprism",
          "makeblastdb"⟩ refOnlyFs oneExec).printed =
        (mainRun ⟨"ref.fasta", some "out", "bmtool", "srprism",
          "makeblastdb"⟩ refOnlyFs zeroExec).printed
      ∧ (mainRun ⟨"ref.fasta", some "out", "bmtool", "srprism",
          "makeblastdb"⟩ refOnlyFs oneExec).joined =
        (mainRun ⟨"ref.fasta", some "out", "bmtool", "srprism",
          "makeblastdb"⟩ refOnlyFs oneExec).launched
      ∧ (mainRun ⟨"ref.fasta", some "out", "bmtool", "srprism",
          "makeblastdb"⟩ refOnlyFs oneExec).results =
        (mainRun ⟨"ref.fasta", some "out", "bmtool", "srprism",
          "makeblastdb"⟩ refOnlyFs oneExec).cmds.map
          (fun c => (c, oneExec c))) :=
  ⟨by decide,
    c6_amended_failure_semantics ⟨"ref.fasta", some "out", "bmtool",
      "srprism", "makeblastdb"⟩ refOnlyFs oneExec (by decide)⟩

/-- The per-tool scheduling check of `generate_db.py`: bmtool by its
single bitmask artifact, srprism and makeblastdb by their respective
artifact lists. -/
def schedTool (args : Args) (fs : String → Bool) : Tool → Bool :=
  fun t =>
    match t with
    | Tool.bmtool => runBmtool (resolvePfx args.opfx args.fasta) fs
    | Tool.srprism => runSrprism (resolvePfx args.opfx args.fasta) fs
    | Tool.makeblastdb => runBlastdb (resolvePfx args.opfx args.fasta) fs

/-- C7: the scheduled tasks are started in task definition order
(bmtool, then srprism, then makeblastdb — the launch list is the
definition-order list filtered by the scheduling check), every launched
worker is joined, and in the event trace every start precedes every
join (the trace is all starts in launch order followed by all joins). -/
theorem c7_launch_order_and_join (args : Args) (fs : String → Bool)
    (exec : String → Int) (h : fs args.fasta = true) :
    (mainRun args fs exec).launched =
      [Tool.bmtool, Tool.srprism, Tool.makeblastdb].filter
        (schedTool args fs)
    ∧ (mainRun args fs exec).joined = (mainRun args fs exec).launched
    ∧ (mainRun args fs exec).trace =
        (mainRun args fs exec).launched.map Event.start
        ++ (mainRun args fs exec).launched.map Event.join := by
  refine ⟨?_, by simp [mainRun, h, runCore], by simp [mainRun, h, runCore]⟩
  simp only [mainRun, h, if_true, runCore]
  by_cases hb : runBmtool (resolvePfx args.opfx args.fasta) fs <;>
    by_cases hs : runSrprism (resolvePfx args.opfx args.fasta) fs <;>
    by_cases hbl : runBlastdb (resolvePfx args.opfx args.fasta) fs <;>
    simp [schedTool, hb, hs, hbl, List.filter]

/-- Witness for C7: concrete run in which bmtool is skipped (its bitmask
exists) and the other two tools are launched. -/
def c7Fs : String → Bool := fun s =>
  ["ref.fasta", "out.bitmask"].contains s

/-- Witness theorem for C7, applying it at a concrete filesystem. -/
theorem c7_launch_order_and_join_witness :
    c7Fs "ref.fasta" = true
    ∧ ((mainRun ⟨"ref.fasta", some "out", "bmtool", "srprism",
          "makeblastdb"⟩ c7Fs zeroExec).launched =
        [Tool.bmtool, Tool.srprism, Tool.makeblastdb].filter
          (schedTool ⟨"ref.fasta", some "out", "bmtool", "srprism",
            "makeblastdb"⟩ c7Fs)
      ∧ (mainRun ⟨"ref.fasta", some "out", "bmtool", "srprism",
          "makeblastdb"⟩ c7Fs zeroExec).joined =
        (mainRun ⟨"ref.fasta", some "out", "bmtool", "srprism",
          "makeblastdb"⟩ c7Fs zeroExec).launched
      ∧ (mainRun ⟨"ref.fasta", some "out", "bmtool", "srprism",
          "makeblastdb"⟩ c7Fs zeroExec).trace =
        (mainRun ⟨"ref.fasta", some "out", "bmtool", "srprism",
          "makeblastdb"⟩ c7Fs zeroExec).launched.map Event.start
        ++ (mainRun ⟨"ref.fasta", some "out", "bmtool", "srprism",
          "makeblastdb"⟩ c7Fs zeroExec).launched.map Event.join) :=
  ⟨by decide,
    c7_launch_order_and_join ⟨"ref.fasta", some "out", "bmtool", "srprism",
      "makeblastdb"⟩ c7Fs zeroExec (by decide)⟩

/-- C9: when `--output-prefix` is omitted the whole run is identical to a
run with the prefix set to the input file path, and a supplied non-empty
prefix is used unchanged. -/
theorem c9_output_pfx_default (fasta b s m p : String)
    (fs : String → Bool) (exec : String → Int) (hp : p ≠ "") :
    mainRun ⟨fasta, none, b, s, m⟩ fs exec
      = mainRun ⟨fasta, some fasta, b, s, m⟩ fs exec
    ∧ resolvePfx (some p) fasta = p
    ∧ resolvePfx none fasta = fasta := by
  refine ⟨?_, by simp [resolvePfx, hp], rfl⟩
  simp [mainRun, resolvePfx]

/-- Witness for C9 at input `ref.fasta` and supplied prefix `out`. -/
theorem c9_output_pfx_default_witness :
    mainRun ⟨"ref.fasta", none, "bmtool", "srprism", "makeblastdb"⟩
        refOnlyFs zeroExec
      = mainRun ⟨"ref.fasta", some "ref.fasta", "bmtool", "srprism",
        "makeblastdb"⟩ refOnlyFs zeroExec
    ∧ resolvePfx (some "out") "ref.fasta" = "out"
    ∧ resolvePfx none "ref.fasta" = "ref.fasta" :=
  c9_output_pfx_default "ref.fasta" "bmtool" "srprism" "makeblastdb" "out"
    refOnlyFs zeroExec (by decide)

/-- Lexer states of Python's `shlex` in POSIX mode as used by
`shlex.split`: between tokens (`ws`), inside an unquoted token (`word`),
inside single or double quotes (`sq`, `dq`), and after an escape
character outside quotes (`escW`, escaped state `'a'`) or inside double
quotes (`escD`). -/
inductive LexState where
  | ws
  | word
  | sq
  | dq
  | escW
  | escD
deriving DecidableEq, Repr

/-- The `shlex.whitespace` character set. -/
def isWS (c : Char) : Bool :=
  c = ' ' || c = '\t' || c = '\r' || c = '\n'

/-- Character-by-character transition function of `shlex.split` in POSIX
mode with `whitespace_split=True`: `q` is the per-token `quoted` flag,
`cur` the token accumulated so far, `acc` the tokens already emitted.
`none` models the `ValueError` raised on an unclosed quote or a trailing
escape character; at end of input a final token is emitted if it is
nonempty or was quoted. -/
def shlexGo : List Char → LexState → Bool → List Char → List (List Char) →
    Option (List (List Char))
  | [], st, q, cur, acc =>
    match st with
    | LexState.ws => some (acc ++ if cur ≠ [] ∨ q = true then [cur] else [])
    | LexState.word => some (acc ++ if cur ≠ [] ∨ q = true then [cur] else [])
    | _ => none
  | c :: cs, LexState.ws, q, cur, acc =>
    if isWS c then
      if cur ≠ [] ∨ q = true then
        shlexGo cs LexState.ws false [] (acc ++ [cur])
      else shlexGo cs LexState.ws q cur acc
    else if c = '\\' then shlexGo cs LexState.escW q cur acc
    else if c = '\'' then shlexGo cs LexState.sq q cur acc
    else if c = '"' then shlexGo cs LexState.dq q cur acc
    else shlexGo cs LexState.word q [c] acc
  | c :: cs, LexState.word, q, cur, acc =>
    if isWS c then
      if cur ≠ [] ∨ q = true then
        shlexGo cs LexState.ws false [] (acc ++ [cur])
      else shlexGo cs LexState.ws q cur acc
    else if c = '\'' then shlexGo cs LexState.sq q cur acc
    else if c = '"' then shlexGo cs LexState.dq q cur acc
    else if c = '\\' then shlexGo cs LexState.escW q cur acc
    else shlexGo cs LexState.word q (cur ++ [c]) acc
  | c :: cs, LexState.sq, _, cur, acc =>
    if c = '\'' then shlexGo cs LexState.word true cur acc
    else shlexGo cs LexState.sq true (cur ++ [c]) acc
  | c :: cs, LexState.dq, _, cur, acc =>
    if c = '"' then shlexGo cs LexState.word true cur acc
    else if c = '\\' then shlexGo cs LexState.escD true cur acc
    else shlexGo cs LexState.dq true (cur ++ [c]) acc
  | c :: cs, LexState.escW, q, cur, acc =>
    shlexGo cs LexState.word q (cur ++ [c]) acc
  | c :: cs, LexState.escD, q, cur, acc =>
    if c ≠ '\\' ∧ c ≠ '"' then shlexGo cs LexState.dq q (cur ++ ['\\', c]) acc
    else shlexGo cs LexState.dq q (cur ++ [c]) acc

/-- `shlex.split` as called by `run_proc_thread.run` on the command
string (line 31 of `generate_db.py`): the argument vector handed to
`subprocess.call`. -/
def shlexSplit (s : String) : Option (List String) :=
  (shlexGo s.data LexState.ws false [] []).map (List.map fun l => String.mk l)

/-- A character that `shlex` treats as ordinary token material: not
whitespace, not a quote, not the escape character. -/
def plainChar (c : Char) : Bool :=
  !isWS c && c != '\'' && c != '"' && c != '\\'

lemma string_data_append (a b : String) : (a ++ b).data = a.data ++ b.data := by
  cases a
  cases b
  rfl

lemma string_mk_data (a : String) : String.mk a.data = a := by
  cases a
  rfl

lemma plainChar_spec {c : Char} (h : plainChar c = true) :
    isWS c = false ∧ c ≠ '\'' ∧ c ≠ '"' ∧ c ≠ '\\' := by
  simp only [plainChar, Bool.and_eq_true, Bool.not_eq_true', bne_iff_ne] at h
  exact ⟨h.1.1.1, h.1.1.2, h.1.2, h.2⟩

lemma shlexGo_word_plain (w : List Char) : ∀ (cs : List Char) (q : Bool)
    (cur : List Char) (acc : List (List Char)), w.all plainChar = true →
    shlexGo (w ++ cs) LexState.word q cur acc
      = shlexGo cs LexState.word q (cur ++ w) acc := by
  induction w with
  | nil =>
    intro cs q cur acc _
    simp
  | cons c w ih =>
    intro cs q cur acc hall
    simp only [List.all_cons, Bool.and_eq_true] at hall
    obtain ⟨⟨h1, h2, h3, h4⟩, hw⟩ :=
      And.intro (plainChar_spec hall.1) hall.2
    simp only [List.cons_append, shlexGo, h1, h2, h3, h4, if_neg,
      Bool.false_eq_true, if_false, reduceIte]
    show shlexGo (w ++ cs) LexState.word q (cur ++ [c]) acc
      = shlexGo cs LexState.word q (cur ++ c :: w) acc
    rw [ih cs q (cur ++ [c]) acc hw]
    simp

lemma shlexGo_ws_word (w : List Char) (cs : List Char)
    (acc : List (List Char)) (hw : w.all plainChar = true) (hne : w ≠ []) :
    shlexGo (w ++ cs) LexState.ws false [] acc
      = shlexGo cs LexState.word false w acc := by
  cases w with
  | nil => exact absurd rfl hne
  | cons c w' =>
    simp only [List.all_cons, Bool.and_eq_true] at hw
    obtain ⟨h1, h2, h3, h4⟩ := plainChar_spec hw.1
    simp only [List.cons_append, shlexGo, h1, h2, h3, h4, Bool.false_eq_true,
      if_false, reduceIte]
    show shlexGo (w' ++ cs) LexState.word false [c] acc
      = shlexGo cs LexState.word false (c :: w') acc
    rw [shlexGo_word_plain w' cs false [c] acc hw.2]
    simp

lemma shlexGo_word_space (cs cur : List Char) (q : Bool)
    (acc : List (List Char)) (h : cur ≠ []) :
    shlexGo (' ' :: cs) LexState.word q cur acc
      = shlexGo cs LexState.ws false [] (acc ++ [cur]) := by
  have hws : isWS ' ' = true := by decide
  simp only [shlexGo, hws, if_true, reduceIte]
  rw [if_pos (Or.inl h)]

lemma shlexGo_eof_word (q : Bool) (cur : List Char)
    (acc : List (List Char)) (h : cur ≠ []) :
    shlexGo [] LexState.word q cur acc = some (acc ++ [cur]) := by
  simp only [shlexGo]
  rw [if_pos (Or.inl h)]

/-- The command strings of `generate_db.py` are a sequence of
space-separated words; `joinSpace` rebuilds such a string from its
words. -/
def joinSpace : List (List Char) → List Char
  | [] => []
  | [w] => w
  | w :: v :: ws => w ++ ' ' :: joinSpace (v :: ws)

lemma shlexGo_joinSpace (ws : List (List Char)) : ∀ acc : List (List Char),
    (∀ w ∈ ws, w.all plainChar = true ∧ w ≠ []) → ws ≠ [] →
    shlexGo (joinSpace ws) LexState.ws false [] acc = some (acc ++ ws) := by
  induction ws with
  | nil =>
    intro acc _ hne
    exact absurd rfl hne
  | cons w rest ih =>
    intro acc hall _
    obtain ⟨hw, hw0⟩ := hall w (List.mem_cons_self w rest)
    cases rest with
    | nil =>
      show shlexGo w LexState.ws false [] acc = some (acc ++ [w])
      have := shlexGo_ws_word w [] acc hw hw0
      rw [List.append_nil] at this
      rw [this, shlexGo_eof_word false w acc hw0]
    | cons v rest' =>
      show shlexGo (w ++ ' ' :: joinSpace (v :: rest')) LexState.ws false []
          acc = some (acc ++ w :: v :: rest')
      rw [shlexGo_ws_word w (' ' :: joinSpace (v :: rest')) acc hw hw0,
        shlexGo_word_space (joinSpace (v :: rest')) w false acc hw0,
        ih (acc ++ [w]) (fun x hx => hall x (List.mem_cons_of_mem w hx))
          (by simp)]
      simp

lemma string_mk_append_lit (a : String) (l : List Char) :
    String.mk (a.data ++ l) = a ++ String.mk l := by
  cases a
  rfl

lemma bmCmd_data (p f x : String) :
    (bmCmdStr p f x).data = joinSpace [p.data, "-d".data, f.data, "-o".data,
      x.data ++ ".bitmask".data, "-A".data, "0".data, "-z".data, "-w".data,
      "18".data] := by
  simp only [bmCmdStr, string_data_append, joinSpace, List.append_assoc,
    List.cons_append]
  rfl

lemma srCmd_data (p f x : String) :
    (srCmdStr p f x).data = joinSpace [p.data, "mkindex".data, "-i".data,
      f.data, "-o".data, x.data ++ ".srprism".data, "-M".data,
      "7168".data] := by
  simp only [srCmdStr, string_data_append, joinSpace, List.append_assoc,
    List.cons_append]
  rfl

lemma blCmd_data (p f x : String) :
    (blCmdStr p f x).data = joinSpace [p.data, "-in".data, f.data,
      "-dbtype".data, "nucl".data, "-out".data, x.data] := by
  simp only [blCmdStr, string_data_append, joinSpace, List.append_assoc,
    List.cons_append]
  rfl

set_option maxRecDepth 16384 in
/-- C4 (refuted as stated): for the input path `"my ref.fasta"` (which
contains a space) the argument vector obtained by `shlex.split` of the
constructed command string is not the claimed flat vector with the input
path as the single `-d` argument — the path is split into two separate
arguments. -/
theorem c4_space_in_path :
    shlexSplit (bmCmdStr "bmtool" "my ref.fasta" "out") =
      some ["bmtool", "-d", "my", "ref.fasta", "-o", "out.bitmask",
        "-A", "0", "-z", "-w", "18"]
    ∧ shlexSplit (bmCmdStr "bmtool" "my ref.fasta" "out") ≠
      some ["bmtool", "-d", "my ref.fasta", "-o", "out.bitmask",
        "-A", "0", "-z", "-w", "18"] := by
  refine ⟨by decide, by decide⟩

/-- C4 (amended, proved): when the tool paths, the input path and the
output prefix are nonempty and contain no whitespace, quote or escape
characters, the argument vectors passed to process execution are exactly
the claimed flat vectors for all three tools. -/
theorem c4_command_vectors (bp sp mp fasta pfx : String)
    (hbp : bp.data.all plainChar = true) (hbp0 : bp.data ≠ [])
    (hsp : sp.data.all plainChar = true) (hsp0 : sp.data ≠ [])
    (hmp : mp.data.all plainChar = true) (hmp0 : mp.data ≠ [])
    (hfa : fasta.data.all plainChar = true) (hfa0 : fasta.data ≠ [])
    (hpx : pfx.data.all plainChar = true) (hpx0 : pfx.data ≠ []) :
    shlexSplit (bmCmdStr bp fasta pfx) =
      some [bp, "-d", fasta, "-o", pfx ++ ".bitmask", "-A", "0", "-z",
        "-w", "18"]
    ∧ shlexSplit (srCmdStr sp fasta pfx) =
      some [sp, "mkindex", "-i", fasta, "-o", pfx ++ ".srprism", "-M",
        "7168"]
    ∧ shlexSplit (blCmdStr mp fasta pfx) =
      some [mp, "-in", fasta, "-dbtype", "nucl", "-out", pfx] := by
  refine ⟨?_, ?_, ?_⟩
  · have hwords : ∀ w ∈ [bp.data, "-d".data, fasta.data, "-o".data,
        pfx.data ++ ".bitmask".data, "-A".data, "0".data, "-z".data,
        "-w".data, "18".data], w.all plainChar = true ∧ w ≠ [] := by
      intro w hw
      simp only [List.mem_cons, List.not_mem_nil, or_false] at hw
      rcases hw with rfl | rfl | rfl | rfl | rfl | rfl | rfl | rfl | rfl | rfl
      · exact ⟨hbp, hbp0⟩
      · exact ⟨by decide, by decide⟩
      · exact ⟨hfa, hfa0⟩
      · exact ⟨by decide, by decide⟩
      · constructor
        · rw [List.all_append]
          exact Bool.and_eq_true_iff.mpr ⟨hpx, by decide⟩
        · simp
      · exact ⟨by decide, by decide⟩
      · exact ⟨by decide, by decide⟩
      · exact ⟨by decide, by decide⟩
      · exact ⟨by decide, by decide⟩
      · exact ⟨by decide, by decide⟩
    unfold shlexSplit
    rw [bmCmd_data, shlexGo_joinSpace _ [] hwords (by simp)]
    simp only [List.nil_append, Option.map_some', List.map_cons,
      List.map_nil, string_mk_data, string_mk_append_lit]
  · have hwords : ∀ w ∈ [sp.data, "mkindex".data, "-i".data, fasta.data,
        "-o".data, pfx.data ++ ".srprism".data, "-M".data, "7168".data],
        w.all plainChar = true ∧ w ≠ [] := by
      intro w hw
      simp only [List.mem_cons, List.not_mem_nil, or_false] at hw
      rcases hw with rfl | rfl | rfl | rfl | rfl | rfl | rfl | rfl
      · exact ⟨hsp, hsp0⟩
      · exact ⟨by decide, by decide⟩
      · exact ⟨by decide, by decide⟩
      · exact ⟨hfa, hfa0⟩
      · exact ⟨by decide, by decide⟩
      · constructor
        · rw [List.all_append]
          exact Bool.and_eq_true_iff.mpr ⟨hpx, by decide⟩
        · simp
      · exact ⟨by decide, by decide⟩
      · exact ⟨by decide, by decide⟩
    unfold shlexSplit
    rw [srCmd_data, shlexGo_joinSpace _ [] hwords (by simp)]
    simp only [List.nil_append, Option.map_some', List.map_cons,
      List.map_nil, string_mk_data, string_mk_append_lit]
  · have hwords : ∀ w ∈ [mp.data, "-in".data, fasta.data, "-dbtype".data,
        "nucl".data, "-out".data, pfx.data],
        w.all plainChar = true ∧ w ≠ [] := by
      intro w hw
      simp only [List.mem_cons, List.not_mem_nil, or_false] at hw
      rcases hw with rfl | rfl | rfl | rfl | rfl | rfl | rfl
      · exact ⟨hmp, hmp0⟩
      · exact ⟨by decide, by decide⟩
      · exact ⟨hfa, hfa0⟩
      · exact ⟨by decide, by decide⟩
      · exact ⟨by decide, by decide⟩
      · exact ⟨by decide, by decide⟩
      · exact ⟨hpx, hpx0⟩
    unfold shlexSplit
    rw [blCmd_data, shlexGo_joinSpace _ [] hwords (by simp)]
    simp only [List.nil_append, Option.map_some', List.map_cons,
      List.map_nil, string_mk_data, string_mk_append_lit]

/-- Witness for the amended C4 at input `ref.fasta` and prefix `out`:
the three concrete vectors of the claim. -/
theorem c4_command_vectors_witness :
    shlexSplit (bmCmdStr "bmtool" "ref.fasta" "out") =
      some ["bmtool", "-d", "ref.fasta", "-o", "out" ++ ".bitmask", "-A",
        "0", "-z", "-w", "18"]
    ∧ shlexSplit (srCmdStr "srprism" "ref.fasta" "out") =
      some ["srprism", "mkindex", "-i", "ref.fasta", "-o",
        "out" ++ ".srprism", "-M", "7168"]
    ∧ shlexSplit (blCmdStr "makeblastdb" "ref.fasta" "out") =
      some ["makeblastdb", "-in", "ref.fasta", "-dbtype", "nucl", "-out",
        "out"] :=
  c4_command_vectors "bmtool" "srprism" "makeblastdb" "ref.fasta" "out"
    (by decide) (by decide) (by decide) (by decide) (by decide) (by decide)
    (by decide) (by decide) (by decide) (by decide)

/-- Process environment as consumed by the path utilities: the value of
`$PATH` and the current working directory used by `os.path.abspath`. -/
structure OsEnv where
  pathVar : String
  cwd : String

/-- Filesystem interface consumed by `find_exe_in_path` and
`find_dependency`: `os.path.exists`, `os.access(..., os.X_OK)`, and
`os.listdir` (`none` models the `EnvironmentError` that `os.listdir`
raises). -/
structure FileSys where
  pathExists : String → Bool
  isExec : String → Bool
  listdir : String → Option (List String)

/-- `posixpath.isabs`: the path starts with a slash. -/
def isabs (s : String) : Bool :=
  s.data.take 1 = ['/']

/-- `posixpath.join` for two components: an absolute second component
replaces the first; otherwise the parts are joined, inserting a slash
unless the first part is empty or already ends with one. -/
def pathJoin (a b : String) : String :=
  if isabs b then b
  else if a = "" ∨ a.data.getLast? = some '/' then a ++ b
  else a ++ "/" ++ b

/-- The `path.split('/')` step of `posixpath.normpath`, on character
lists. -/
def splitSlash : List Char → List (List Char)
  | [] => [[]]
  | c :: cs =>
    if c = '/' then [] :: splitSlash cs
    else
      match splitSlash cs with
      | [] => [[c]]
      | t :: ts => (c :: t) :: ts

/-- The `'/'.join(comps)` step of `posixpath.normpath`, on character
lists. -/
def joinSlash : List (List Char) → List Char
  | [] => []
  | [w] => w
  | w :: v :: ws => w ++ '/' :: joinSlash (v :: ws)

/-- One iteration of the component loop of `posixpath.normpath`: empty
and `.` components are dropped; `..` pops the previous component except
at the start of a relative path or after an unresolved `..`; everything
else is appended. -/
def normStep (isAbs : Bool) (acc : List (List Char)) (comp : List Char) :
    List (List Char) :=
  if comp = [] ∨ comp = ['.'] then acc
  else if comp ≠ ['.', '.'] ∨ (isAbs = false ∧ acc = [])
      ∨ (acc ≠ [] ∧ acc.getLast? = some ['.', '.']) then acc ++ [comp]
  else if acc ≠ [] then acc.dropLast
  else acc

/-- The initial-slash count of `posixpath.normpath`: POSIX keeps two
leading slashes (but not three or more) as significant. -/
def slashCount (cs : List Char) : Nat :=
  if cs.take 1 = ['/'] then
    if cs.take 2 = ['/', '/'] ∧ cs.take 3 ≠ ['/', '/', '/'] then 2 else 1
  else 0

/-- `posixpath.normpath` on character lists: split on slashes, process
the components, rejoin, reattach the significant leading slashes, with
`.` for an empty result. -/
def normpathData (cs : List Char) : List Char :=
  if cs = [] then ['.']
  else if List.replicate (slashCount cs) '/'
      ++ joinSlash ((splitSlash cs).foldl (normStep (slashCount cs != 0)) [])
      = [] then ['.']
  else List.replicate (slashCount cs) '/'
    ++ joinSlash ((splitSlash cs).foldl (normStep (slashCount cs != 0)) [])

/-- `posixpath.normpath` on strings. -/
def normpath (s : String) : String :=
  String.mk (normpathData s.data)

/-- The join-with-cwd step of `posixpath.abspath`: a relative path is
joined onto the current working directory. -/
def preJoin (p : String) (env : OsEnv) : String :=
  if isabs p then p else pathJoin env.cwd p

/-- `posixpath.abspath`: make the path absolute, then normalize it. -/
def abspath (p : String) (env : OsEnv) : String :=
  normpath (preJoin p env)

/-- Lines 192-203 of `src/kneaddata/utilities.py`, `find_exe_in_path`:
walk the `$PATH` entries in order and return the first directory whose
join with the executable name exists and (unless permissions checks are
bypassed) is executable; `none` when no entry matches. -/
def find_exe_in_path (exe : String) (bypass : Bool) (env : OsEnv)
    (fs : FileSys) : Option String :=
  (env.pathVar.splitOn ":").find? fun path =>
    fs.pathExists (pathJoin path exe)
      && (bypass || fs.isExec (pathJoin path exe))

/-- The `$PATH`-search branch of `find_dependency` (lines 223-230 of
`src/kneaddata/utilities.py`): search the path, exiting the process with
an error naming the tool when the executable is not found. -/
def find_dependency_search (exe name pathOption : String) (bypass : Bool)
    (env : OsEnv) (fs : FileSys) : Except String String :=
  match find_exe_in_path exe bypass env fs with
  | none =>
    Except.error ("ERROR: Unable to find " ++ name ++ ". Please provide the "
      ++ "full path to " ++ name ++ " with " ++ pathOption ++ ".")
  | some exePath => Except.ok (abspath (pathJoin exePath exe) env)

/-- Lines 205-232 of `src/kneaddata/utilities.py`, `find_dependency`:
with a (truthy) user-provided directory, make it absolute, list it
(exiting with an error naming the tool when listing fails), require the
executable to be one of its entries, and return the absolutized join;
otherwise search `$PATH`.  `Except.error` models `sys.exit(message)`. -/
def find_dependency (pathProvided : Option String)
    (exe name pathOption : String) (bypass : Bool) (env : OsEnv)
    (fs : FileSys) : Except String String :=
  match pathProvided with
  | some pp =>
    if pp = "" then find_dependency_search exe name pathOption bypass env fs
    else
      let pabs := abspath pp env
      match fs.listdir pabs with
      | none =>
        Except.error ("ERROR: Unable to list files in " ++ name
          ++ " directory: " ++ pabs)
      | some files =>
        if exe ∈ files then Except.ok (abspath (pathJoin pabs exe) env)
        else
          Except.error ("ERROR: The " ++ exe
            ++ " executable is not included in the directory: " ++ pabs)
  | none => find_dependency_search exe name pathOption bypass env fs

lemma string_append_assoc (a b c : String) : a ++ b ++ c = a ++ (b ++ c) := by
  rcases a with ⟨x⟩
  rcases b with ⟨y⟩
  rcases c with ⟨z⟩
  exact congrArg String.mk (List.append_assoc x y z)

lemma take_one_append (a b : List Char) (ha : a ≠ []) :
    (a ++ b).take 1 = a.take 1 := by
  cases a with
  | nil => exact absurd rfl ha
  | cons c cs => simp

lemma splitSlash_ne_nil (cs : List Char) : splitSlash cs ≠ [] := by
  cases cs with
  | nil => simp [splitSlash]
  | cons c cs =>
    unfold splitSlash
    by_cases h : c = '/'
    · simp [h]
    · rw [if_neg h]
      rcases hs : splitSlash cs with _ | ⟨t, ts⟩ <;> simp

lemma splitSlash_append (xs ys : List Char) :
    splitSlash (xs ++ '/' :: ys) = splitSlash xs ++ splitSlash ys := by
  induction xs with
  | nil => simp [splitSlash]
  | cons c cs ih =>
    by_cases h : c = '/'
    · subst h
      simp only [List.cons_append]
      rw [splitSlash, if_pos rfl, ih]
      rw [splitSlash, if_pos rfl]
      rfl
    · simp only [List.cons_append]
      rw [splitSlash, if_neg h, ih]
      rw [splitSlash, if_neg h]
      rcases hs : splitSlash cs with _ | ⟨t, ts⟩
      · exact absurd hs (splitSlash_ne_nil cs)
      · simp

lemma splitSlash_no_slash (cs : List Char) :
    ∀ x ∈ splitSlash cs, ∀ c ∈ x, c ≠ '/' := by
  induction cs with
  | nil =>
    intro x hx c hc
    simp [splitSlash] at hx
    subst hx
    simp at hc
  | cons a cs ih =>
    intro x hx c hc
    rw [splitSlash] at hx
    by_cases h : a = '/'
    · rw [if_pos h] at hx
      rcases List.mem_cons.mp hx with rfl | hx
      · simp at hc
      · exact ih x hx c hc
    · rw [if_neg h] at hx
      rcases hs : splitSlash cs with _ | ⟨t, ts⟩
      · exact absurd hs (splitSlash_ne_nil cs)
      · rw [hs] at hx
        rcases List.mem_cons.mp hx with rfl | hx
        · rcases List.mem_cons.mp hc with rfl | hc2
          · exact h
          · exact ih t (by rw [hs]; exact List.mem_cons_self t ts) c hc2
        · exact ih x (by rw [hs]; exact List.mem_cons_of_mem t hx) c hc

lemma splitSlash_single (cs : List Char) (h : ∀ c ∈ cs, c ≠ '/') :
    splitSlash cs = [cs] := by
  induction cs with
  | nil => rfl
  | cons a cs ih =>
    have ha : a ≠ '/' := h a (List.mem_cons_self a cs)
    rw [splitSlash, if_neg ha, ih (fun c hc => h c (List.mem_cons_of_mem a hc))]

lemma joinSlash_ne_nil (N : List (List Char)) (h0 : N ≠ [])
    (h1 : ∀ x ∈ N, x ≠ []) : joinSlash N ≠ [] := by
  cases N with
  | nil => exact absurd rfl h0
  | cons w ws =>
    cases ws with
    | nil => exact h1 w (List.mem_cons_self w [])
    | cons v ws' => simp [joinSlash]

lemma joinSlash_append_single (N : List (List Char)) (e : List Char)
    (h0 : N ≠ []) : joinSlash (N ++ [e]) = joinSlash N ++ '/' :: e := by
  induction N with
  | nil => exact absurd rfl h0
  | cons w ws ih =>
    cases ws with
    | nil => simp [joinSlash]
    | cons v ws' =>
      have : (w :: v :: ws') ++ [e] = w :: v :: (ws' ++ [e]) := by simp
      rw [this, joinSlash, joinSlash]
      have h2 : v :: (ws' ++ [e]) = (v :: ws') ++ [e] := by simp
      rw [h2, ih (by simp)]
      simp

lemma joinSlash_split (N : List (List Char)) (h0 : N ≠ [])
    (h1 : ∀ x ∈ N, x ≠ [] ∧ ∀ c ∈ x, c ≠ '/') :
    splitSlash (joinSlash N) = N := by
  induction N with
  | nil => exact absurd rfl h0
  | cons w ws ih =>
    cases ws with
    | nil =>
      show splitSlash (joinSlash [w]) = [w]
      rw [joinSlash]
      exact splitSlash_single w (h1 w (List.mem_cons_self w [])).2
    | cons v ws' =>
      rw [joinSlash, splitSlash_append,
        splitSlash_single w (h1 w (List.mem_cons_self w _)).2,
        ih (by simp) (fun x hx => h1 x (List.mem_cons_of_mem w hx))]
      rfl

lemma joinSlash_last_ne_slash (N : List (List Char)) (h0 : N ≠ [])
    (h1 : ∀ x ∈ N, x ≠ [] ∧ ∀ c ∈ x, c ≠ '/') :
    (joinSlash N).getLast? ≠ some '/' := by
  induction N with
  | nil => exact absurd rfl h0
  | cons w ws ih =>
    cases ws with
    | nil =>
      show (joinSlash [w]).getLast? ≠ some '/'
      rw [joinSlash]
      intro heq
      have hw := h1 w (List.mem_cons_self w [])
      rw [List.getLast?_eq_getLast_of_ne_nil hw.1] at heq
      exact hw.2 (w.getLast hw.1) (List.getLast_mem hw.1)
        (Option.some.inj heq)
    | cons v ws' =>
      have hJ : joinSlash (v :: ws') ≠ [] :=
        joinSlash_ne_nil (v :: ws') (by simp)
          (fun x hx => (h1 x (List.mem_cons_of_mem w hx)).1)
      rw [joinSlash, List.getLast?_append_of_ne_nil w (by simp)]
      have : ('/' :: joinSlash (v :: ws')) = ['/'] ++ joinSlash (v :: ws') :=
        rfl
      rw [this, List.getLast?_append_of_ne_nil ['/'] hJ]
      exact ih (by simp) (fun x hx => h1 x (List.mem_cons_of_mem w hx))

lemma joinSlash_cons_form (w : List Char) (ws : List (List Char)) :
    ∃ r, joinSlash (w :: ws) = w ++ r := by
  cases ws with
  | nil => exact ⟨[], by simp [joinSlash]⟩
  | cons v ws' => exact ⟨'/' :: joinSlash (v :: ws'), rfl⟩

/-- A fully processed path component: nonempty, not a dot component, and
containing no slash. -/
def CleanComp (x : List Char) : Prop :=
  x ≠ [] ∧ x ≠ ['.'] ∧ x ≠ ['.', '.'] ∧ ∀ c ∈ x, c ≠ '/'

lemma normStep_nil_comp (b : Bool) (acc : List (List Char)) :
    normStep b acc [] = acc := by
  simp [normStep]

lemma normStep_clean (b : Bool) (acc : List (List Char)) (e : List Char)
    (h1 : e ≠ []) (h2 : e ≠ ['.']) (h3 : e ≠ ['.', '.']) :
    normStep b acc e = acc ++ [e] := by
  unfold normStep
  rw [if_neg (by simp [h1, h2]), if_pos (Or.inl h3)]

lemma foldl_normStep_clean (b : Bool) (l : List (List Char))
    (hl : ∀ x ∈ l, x ≠ [] ∧ x ≠ ['.'] ∧ x ≠ ['.', '.']) :
    ∀ acc, l.foldl (normStep b) acc = acc ++ l := by
  induction l with
  | nil => intro acc; simp
  | cons e l ih =>
    intro acc
    obtain ⟨h1, h2, h3⟩ := hl e (List.mem_cons_self e l)
    show (l.foldl (normStep b) (normStep b acc e)) = acc ++ e :: l
    rw [normStep_clean b acc e h1 h2 h3,
      ih (fun x hx => hl x (List.mem_cons_of_mem e hx))]
    simp

lemma normStep_preserves (acc : List (List Char)) (e : List Char)
    (hacc : ∀ x ∈ acc, CleanComp x) (he : ∀ c ∈ e, c ≠ '/') :
    ∀ x ∈ normStep true acc e, CleanComp x := by
  unfold normStep
  by_cases h1 : e = [] ∨ e = ['.']
  · rw [if_pos h1]; exact hacc
  · rw [if_neg h1]
    push_neg at h1
    by_cases h2 : e ≠ ['.', '.'] ∨ (true = false ∧ acc = [])
        ∨ (acc ≠ [] ∧ acc.getLast? = some ['.', '.'])
    · rw [if_pos h2]
      intro x hx
      rcases List.mem_append.mp hx with hx | hx
      · exact hacc x hx
      · have hx' : x = e := by simpa using hx
        subst hx'
        refine ⟨h1.1, h1.2, ?_, he⟩
        rcases h2 with h2 | ⟨h2, _⟩ | ⟨hne, hlast⟩
        · exact h2
        · exact absurd h2 (by simp)
        · exfalso
          have hmem : (['.', '.'] : List Char) ∈ acc := by
            have := List.dropLast_append_getLast? _ hlast
            rw [← this]
            simp
          exact (hacc _ hmem).2.2.1 rfl
    · rw [if_neg h2]
      by_cases h3 : acc ≠ []
      · rw [if_pos h3]
        intro x hx
        exact hacc x ((List.dropLast_sublist acc).subset hx)
      · rw [if_neg h3]; exact hacc

lemma foldl_normStep_preserves (l : List (List Char))
    (hl : ∀ x ∈ l, ∀ c ∈ x, c ≠ '/') :
    ∀ acc, (∀ x ∈ acc, CleanComp x) →
    ∀ x ∈ l.foldl (normStep true) acc, CleanComp x := by
  induction l with
  | nil => intro acc hacc x hx; exact hacc x hx
  | cons e l ih =>
    intro acc hacc
    exact ih (fun x hx => hl x (List.mem_cons_of_mem e hx)) _
      (normStep_preserves acc e hacc (hl e (List.mem_cons_self e l)))

lemma slashCount_cases (cs : List Char) (h : cs.take 1 = ['/']) :
    slashCount cs = 1 ∨ slashCount cs = 2 := by
  unfold slashCount
  rw [if_pos h]
  by_cases h2 : cs.take 2 = ['/', '/'] ∧ cs.take 3 ≠ ['/', '/', '/']
  · rw [if_pos h2]; right; rfl
  · rw [if_neg h2]; left; rfl

lemma replicate_slash_take_one (k : Nat) (hk : k = 1 ∨ k = 2) (b : List Char) :
    (List.replicate k '/' ++ b).take 1 = ['/'] := by
  rcases hk with rfl | rfl <;> simp

lemma normpathData_abs (cs : List Char) (h : cs.take 1 = ['/']) :
    ∃ k N, (k = 1 ∨ k = 2)
      ∧ normpathData cs = List.replicate k '/' ++ joinSlash N
      ∧ N = (splitSlash cs).foldl (normStep true) []
      ∧ k = slashCount cs
      ∧ ∀ x ∈ N, CleanComp x := by
  have hne : cs ≠ [] := by
    intro h0
    rw [h0] at h
    simp at h
  have hk := slashCount_cases cs h
  have hb : (slashCount cs != 0) = true := by
    rcases hk with hk | hk <;> rw [hk] <;> rfl
  refine ⟨slashCount cs, (splitSlash cs).foldl (normStep true) [], hk, ?_,
    rfl, rfl, foldl_normStep_preserves _ (splitSlash_no_slash cs) [] (by simp)⟩
  unfold normpathData
  rw [if_neg hne]
  simp only [hb]
  rw [if_neg ?hr]
  case hr =>
    intro h0
    have : List.replicate (slashCount cs) '/' ≠ [] := by
      rcases hk with hk | hk <;> simp [hk]
    exact this (List.append_eq_nil.mp h0).1

lemma normpathData_tail (u e : List Char) (h : (u ++ '/' :: e).take 1 = ['/'])
    (he0 : e ≠ []) (hes : ∀ c ∈ e, c ≠ '/') (he1 : e ≠ ['.'])
    (he2 : e ≠ ['.', '.']) :
    (∃ v, normpathData (u ++ '/' :: e) = v ++ '/' :: e)
    ∧ (normpathData (u ++ '/' :: e)).take 1 = ['/'] := by
  obtain ⟨k, N, hk, heq, hN, hks, hclean⟩ := normpathData_abs (u ++ '/' :: e) h
  have hsplit : splitSlash (u ++ '/' :: e) = splitSlash u ++ [e] := by
    rw [splitSlash_append, splitSlash_single e hes]
  have hNe : N = (splitSlash u).foldl (normStep true) [] ++ [e] := by
    rw [hN, hsplit, List.foldl_append]
    exact normStep_clean true _ e he0 he1 he2
  rcases hMc : (splitSlash u).foldl (normStep true) [] with _ | ⟨m, ms⟩
  · rw [hMc, List.nil_append] at hNe
    rw [hNe] at heq
    rw [show joinSlash [e] = e from rfl] at heq
    constructor
    · rcases hk with rfl | rfl
      · exact ⟨[], by rw [heq]; rfl⟩
      · exact ⟨['/'], by rw [heq]; rfl⟩
    · rw [heq]
      exact replicate_slash_take_one k hk e
  · rw [hMc] at hNe
    rw [hNe] at heq
    rw [joinSlash_append_single (m :: ms) e (by simp)] at heq
    constructor
    · exact ⟨List.replicate k '/' ++ joinSlash (m :: ms), by
        rw [heq, ← List.append_assoc]⟩
    · rw [heq]
      exact replicate_slash_take_one k hk _

lemma abspath_data (p : String) (env : OsEnv) :
    (abspath p env).data = normpathData (preJoin p env).data := rfl

lemma isabs_true_iff (s : String) : isabs s = true ↔ s.data.take 1 = ['/'] := by
  simp [isabs]

lemma isabs_false_of_noslash (e : String) (he0 : e.data ≠ [])
    (hes : ∀ c ∈ e.data, c ≠ '/') : isabs e = false := by
  unfold isabs
  rcases hd : e.data with _ | ⟨c, rest⟩
  · exact absurd hd he0
  · have hc : c ≠ '/' := hes c (by rw [hd]; exact List.mem_cons_self c rest)
    simp [hc]

lemma string_data_ne_nil (a : String) (h : a.data ≠ []) : a ≠ "" := by
  intro h0
  subst h0
  exact h rfl

lemma pathJoin_tail_base (a b : String) (ha : a.data ≠ [])
    (hb : isabs b = false) :
    ∃ u, (pathJoin a b).data = u ++ '/' :: b.data := by
  unfold pathJoin
  simp only [hb, Bool.false_eq_true, if_false]
  by_cases h2 : a = "" ∨ a.data.getLast? = some '/'
  · rw [if_pos h2]
    rcases h2 with h2 | h2
    · exact absurd h2 (string_data_ne_nil a ha)
    · refine ⟨a.data.dropLast, ?_⟩
      rw [string_data_append]
      conv_lhs => rw [← List.dropLast_append_getLast? '/' h2]
      simp
  · rw [if_neg h2]
    refine ⟨a.data, ?_⟩
    rw [string_data_append, string_data_append]
    simp

lemma pathJoin_tail_prop (a x : String) (e : List Char)
    (hx : ∃ u, x.data = u ++ '/' :: e) :
    ∃ u, (pathJoin a x).data = u ++ '/' :: e := by
  obtain ⟨u, hu⟩ := hx
  unfold pathJoin
  by_cases h1 : isabs x
  · rw [if_pos h1]
    exact ⟨u, hu⟩
  · simp only [h1, Bool.false_eq_true, if_false]
    by_cases h2 : a = "" ∨ a.data.getLast? = some '/'
    · rw [if_pos h2]
      refine ⟨a.data ++ u, ?_⟩
      rw [string_data_append, hu, List.append_assoc]
    · rw [if_neg h2]
      refine ⟨a.data ++ '/' :: u, ?_⟩
      rw [string_data_append, string_data_append, hu]
      simp

lemma preJoin_take1 (y : String) (env : OsEnv)
    (hcwd : isabs env.cwd = true) :
    (preJoin y env).data.take 1 = ['/'] := by
  have hcwd' : env.cwd.data.take 1 = ['/'] := (isabs_true_iff env.cwd).mp hcwd
  have hcne : env.cwd.data ≠ [] := by
    intro h0
    rw [h0] at hcwd'
    simp at hcwd'
  unfold preJoin
  by_cases h : isabs y
  · rw [if_pos h]
    exact (isabs_true_iff y).mp h
  · simp only [h, Bool.false_eq_true, if_false]
    unfold pathJoin
    simp only [h, Bool.false_eq_true, if_false]
    by_cases h2 : env.cwd = "" ∨ env.cwd.data.getLast? = some '/'
    · rw [if_pos h2, string_data_append, take_one_append _ _ hcne, hcwd']
    · rw [if_neg h2, string_data_append, string_data_append,
        List.append_assoc, take_one_append _ _ hcne, hcwd']

lemma pathJoin_data_nil_left (d exe : String) (hd : d.data = [])
    (hxb : isabs exe = false) : (pathJoin d exe).data = exe.data := by
  have hd' : d = "" := by
    rcases d with ⟨l⟩
    exact congrArg String.mk hd
  subst hd'
  unfold pathJoin
  simp only [hxb, Bool.false_eq_true, if_false]
  simp [string_data_append]

lemma abspath_join_ok (d exe : String) (env : OsEnv)
    (hcwd : isabs env.cwd = true)
    (he0 : exe.data ≠ []) (hes : ∀ c ∈ exe.data, c ≠ '/')
    (he1 : exe.data ≠ ['.']) (he2 : exe.data ≠ ['.', '.']) :
    (∃ v, (abspath (pathJoin d exe) env).data = v ++ '/' :: exe.data)
    ∧ (abspath (pathJoin d exe) env).data.take 1 = ['/'] := by
  have hxb : isabs exe = false := isabs_false_of_noslash exe he0 hes
  have hcwd' : env.cwd.data.take 1 = ['/'] := (isabs_true_iff env.cwd).mp hcwd
  have hcne : env.cwd.data ≠ [] := by
    intro h0
    rw [h0] at hcwd'
    simp at hcwd'
  have hform : ∃ u, (preJoin (pathJoin d exe) env).data
      = u ++ '/' :: exe.data := by
    unfold preJoin
    by_cases h1 : isabs (pathJoin d exe)
    · rw [if_pos h1]
      by_cases hd : d.data = []
      · exfalso
        have hdd := pathJoin_data_nil_left d exe hd hxb
        have hfalse : isabs (pathJoin d exe) = false := by
          unfold isabs at hxb ⊢
          rw [hdd]
          exact hxb
        rw [hfalse] at h1
        exact absurd h1 (by simp)
      · exact pathJoin_tail_base d exe hd hxb
    · simp only [h1, if_false]
      by_cases hd : d.data = []
      · have hdd := pathJoin_data_nil_left d exe hd hxb
        have hb : isabs (pathJoin d exe) = false := by
          unfold isabs at hxb ⊢
          rw [hdd]
          exact hxb
        obtain ⟨u, hu⟩ := pathJoin_tail_base env.cwd (pathJoin d exe) hcne hb
        rw [hdd] at hu
        exact ⟨u, hu⟩
      · exact pathJoin_tail_prop env.cwd (pathJoin d exe) exe.data
          (pathJoin_tail_base d exe hd hxb)
  obtain ⟨u, hu⟩ := hform
  have htake := preJoin_take1 (pathJoin d exe) env hcwd
  rw [hu] at htake
  have hmain := normpathData_tail u exe.data htake he0 hes he1 he2
  constructor
  · rw [abspath_data, hu]
    exact hmain.1
  · rw [abspath_data, hu]
    exact hmain.2

lemma foldl_normStep_nil_reps (b : Bool) (k : Nat)
    (acc : List (List Char)) :
    (List.replicate k ([] : List Char)).foldl (normStep b) acc = acc := by
  induction k with
  | zero => rfl
  | succ n ih =>
    rw [List.replicate_succ]
    show (List.replicate n ([] : List Char)).foldl (normStep b)
      (normStep b acc []) = acc
    rw [normStep_nil_comp]
    exact ih

lemma normpathData_slash_word (e : List Char) (he0 : e ≠ [])
    (hes : ∀ c ∈ e, c ≠ '/') (he1 : e ≠ ['.']) (he2 : e ≠ ['.', '.']) :
    normpathData ('/' :: e) = '/' :: e := by
  rcases e with _ | ⟨c, rest⟩
  · exact absurd rfl he0
  · have hc : c ≠ '/' := hes c (List.mem_cons_self c rest)
    have hsc : slashCount ('/' :: c :: rest) = 1 := by
      unfold slashCount
      rw [if_pos (by simp), if_neg (by simp [hc])]
    have hsp : splitSlash ('/' :: c :: rest) = [[], c :: rest] := by
      rw [splitSlash, if_pos rfl, splitSlash_single (c :: rest) hes]
    have hfold : ([[], c :: rest] : List (List Char)).foldl (normStep true) []
        = [c :: rest] := by
      show normStep true (normStep true [] []) (c :: rest) = [c :: rest]
      rw [normStep_nil_comp,
        normStep_clean true [] (c :: rest) (by simp) he1 he2]
      rfl
    unfold normpathData
    rw [if_neg (by simp)]
    simp only [hsc, show ((1 : Nat) != 0) = true from rfl, hsp, hfold]
    rw [if_neg (by simp)]
    rfl

lemma normpathData_slash2_word (e : List Char) (he0 : e ≠ [])
    (hes : ∀ c ∈ e, c ≠ '/') (he1 : e ≠ ['.']) (he2 : e ≠ ['.', '.']) :
    normpathData ('/' :: '/' :: e) = '/' :: '/' :: e := by
  rcases e with _ | ⟨c, rest⟩
  · exact absurd rfl he0
  · have hc : c ≠ '/' := hes c (List.mem_cons_self c rest)
    have hsc : slashCount ('/' :: '/' :: c :: rest) = 2 := by
      unfold slashCount
      rw [if_pos (by simp), if_pos (by simp [hc])]
    have hsp : splitSlash ('/' :: '/' :: c :: rest) = [[], [], c :: rest] := by
      rw [splitSlash, if_pos rfl, splitSlash, if_pos rfl,
        splitSlash_single (c :: rest) hes]
    have hfold : ([[], [], c :: rest] : List (List Char)).foldl
        (normStep true) [] = [c :: rest] := by
      show normStep true (normStep true (normStep true [] []) [])
        (c :: rest) = [c :: rest]
      rw [normStep_nil_comp, normStep_nil_comp,
        normStep_clean true [] (c :: rest) (by simp) he1 he2]
      rfl
    unfold normpathData
    rw [if_neg (by simp)]
    simp only [hsc, show ((2 : Nat) != 0) = true from rfl, hsp, hfold]
    rw [if_neg (by simp)]
    rfl

lemma normpathData_ext (k : Nat) (hk : k = 1 ∨ k = 2) (N : List (List Char))
    (hN0 : N ≠ []) (hclean : ∀ x ∈ N, CleanComp x)
    (e : List Char) (he0 : e ≠ []) (hes : ∀ c ∈ e, c ≠ '/')
    (he1 : e ≠ ['.']) (he2 : e ≠ ['.', '.']) :
    normpathData ((List.replicate k '/' ++ joinSlash N) ++ '/' :: e)
      = (List.replicate k '/' ++ joinSlash N) ++ '/' :: e := by
  have hNen : ∀ x ∈ N, x ≠ [] := fun x hx => (hclean x hx).1
  have hNns : ∀ x ∈ N, ∀ c ∈ x, c ≠ '/' := fun x hx => (hclean x hx).2.2.2
  have hNsplit : ∀ x ∈ N, x ≠ [] ∧ ∀ c ∈ x, c ≠ '/' :=
    fun x hx => ⟨hNen x hx, hNns x hx⟩
  have hNdots : ∀ x ∈ N, x ≠ [] ∧ x ≠ ['.'] ∧ x ≠ ['.', '.'] :=
    fun x hx => ⟨(hclean x hx).1, (hclean x hx).2.1, (hclean x hx).2.2.1⟩
  obtain ⟨w, ws, rfl⟩ : ∃ w ws, N = w :: ws := by
    rcases N with _ | ⟨w, ws⟩
    · exact absurd rfl hN0
    · exact ⟨w, ws, rfl⟩
  obtain ⟨r0, hr0⟩ := joinSlash_cons_form w ws
  obtain ⟨c0, w', rfl⟩ : ∃ c0 w', w = c0 :: w' := by
    rcases w with _ | ⟨c0, w'⟩
    · exact absurd rfl (hNen _ (List.mem_cons_self _ _))
    · exact ⟨c0, w', rfl⟩
  have hc0 : c0 ≠ '/' :=
    hNns _ (List.mem_cons_self _ _) c0 (List.mem_cons_self _ _)
  have hcs_shape : (List.replicate k '/' ++ joinSlash ((c0 :: w') :: ws))
      ++ '/' :: e
      = List.replicate k '/' ++ (c0 :: (w' ++ r0 ++ '/' :: e)) := by
    rw [List.append_assoc, hr0]
    simp [List.append_assoc]
  have hsc : slashCount ((List.replicate k '/' ++ joinSlash ((c0 :: w') :: ws))
      ++ '/' :: e) = k := by
    rw [hcs_shape]
    rcases hk with rfl | rfl
    · unfold slashCount
      rw [if_pos (by simp), if_neg (by simp [hc0])]
    · unfold slashCount
      rw [if_pos (by simp), if_pos (by simp [hc0])]
  have hsp0 : splitSlash (List.replicate k '/' ++ joinSlash ((c0 :: w') :: ws))
      = List.replicate k [] ++ ((c0 :: w') :: ws) := by
    rcases hk with rfl | rfl
    · show splitSlash ('/' :: joinSlash ((c0 :: w') :: ws)) = _
      rw [splitSlash, if_pos rfl, joinSlash_split _ (by simp) hNsplit]
      rfl
    · show splitSlash ('/' :: '/' :: joinSlash ((c0 :: w') :: ws)) = _
      rw [splitSlash, if_pos rfl, splitSlash, if_pos rfl,
        joinSlash_split _ (by simp) hNsplit]
      rfl
  have hsp : splitSlash ((List.replicate k '/' ++ joinSlash ((c0 :: w') :: ws))
      ++ '/' :: e)
      = (List.replicate k [] ++ ((c0 :: w') :: ws)) ++ [e] := by
    rw [splitSlash_append, splitSlash_single e hes, hsp0]
  have hfold : ((List.replicate k [] ++ ((c0 :: w') :: ws)) ++ [e]).foldl
      (normStep true) [] = ((c0 :: w') :: ws) ++ [e] := by
    rw [List.foldl_append, List.foldl_append, foldl_normStep_nil_reps,
      foldl_normStep_clean true ((c0 :: w') :: ws) hNdots []]
    show normStep true ([] ++ (c0 :: w') :: ws) e = _
    rw [List.nil_append, normStep_clean true _ e he0 he1 he2]
  have hb : (slashCount ((List.replicate k '/'
      ++ joinSlash ((c0 :: w') :: ws)) ++ '/' :: e) != 0) = true := by
    rw [hsc]
    rcases hk with rfl | rfl <;> rfl
  have hne : (List.replicate k '/' ++ joinSlash ((c0 :: w') :: ws))
      ++ '/' :: e ≠ [] := by simp
  unfold normpathData
  rw [if_neg hne, hb, hsc, hsp, hfold,
    joinSlash_append_single _ e (by simp)]
  rw [if_neg (by simp)]
  simp [List.append_assoc]

lemma abspath_fix (q exe : String) (env : OsEnv)
    (hcwd : isabs env.cwd = true)
    (he0 : exe.data ≠ []) (hes : ∀ c ∈ exe.data, c ≠ '/')
    (he1 : exe.data ≠ ['.']) (he2 : exe.data ≠ ['.', '.']) :
    abspath (pathJoin (abspath q env) exe) env
      = pathJoin (abspath q env) exe := by
  have hxb : isabs exe = false := isabs_false_of_noslash exe he0 hes
  have hq1 : (preJoin q env).data.take 1 = ['/'] := preJoin_take1 q env hcwd
  obtain ⟨k, N, hk, heq, hN, hks, hclean⟩ :=
    normpathData_abs (preJoin q env).data hq1
  have hpdata : (abspath q env).data = List.replicate k '/' ++ joinSlash N := by
    rw [abspath_data]
    exact heq
  have hrep_ne : List.replicate k '/' ≠ ([] : List Char) := by
    rcases hk with rfl | rfl <;> simp
  have hpne : (abspath q env).data ≠ [] := by
    rw [hpdata]
    intro h0
    exact hrep_ne (List.append_eq_nil.mp h0).1
  have hpne' : abspath q env ≠ "" := string_data_ne_nil _ hpne
  rcases N with _ | ⟨w, ws⟩
  · have hp1 : (abspath q env).data = List.replicate k '/' := by
      rw [hpdata]
      simp [joinSlash]
    have hlast : (abspath q env).data.getLast? = some '/' := by
      rw [hp1]
      rcases hk with rfl | rfl <;> rfl
    have hjoin : pathJoin (abspath q env) exe = abspath q env ++ exe := by
      unfold pathJoin
      simp only [hxb, Bool.false_eq_true, if_false]
      rw [if_pos (Or.inr hlast)]
    rw [hjoin]
    have hxdata : (abspath q env ++ exe).data
        = List.replicate k '/' ++ exe.data := by
      rw [string_data_append, hp1]
    have hxabs : isabs (abspath q env ++ exe) = true := by
      rw [isabs_true_iff, hxdata]
      exact replicate_slash_take_one k hk _
    show normpath (preJoin (abspath q env ++ exe) env) = _
    rw [show preJoin (abspath q env ++ exe) env = abspath q env ++ exe from by
      unfold preJoin
      rw [if_pos hxabs]]
    unfold normpath
    have hcompute : normpathData ((abspath q env ++ exe).data)
        = (abspath q env ++ exe).data := by
      rw [hxdata]
      rcases hk with rfl | rfl
      · show normpathData ('/' :: exe.data) = '/' :: exe.data
        exact normpathData_slash_word exe.data he0 hes he1 he2
      · show normpathData ('/' :: '/' :: exe.data) = '/' :: '/' :: exe.data
        exact normpathData_slash2_word exe.data he0 hes he1 he2
    rw [hcompute, string_mk_data]
  · have hjne : joinSlash (w :: ws) ≠ [] :=
      joinSlash_ne_nil _ (by simp) (fun x hx => (hclean x hx).1)
    have hlast : (abspath q env).data.getLast? ≠ some '/' := by
      rw [hpdata, List.getLast?_append_of_ne_nil _ hjne]
      exact joinSlash_last_ne_slash _ (by simp)
        (fun x hx => ⟨(hclean x hx).1, (hclean x hx).2.2.2⟩)
    have hjoin : pathJoin (abspath q env) exe
        = abspath q env ++ "/" ++ exe := by
      unfold pathJoin
      simp only [hxb, Bool.false_eq_true, if_false]
      rw [if_neg (by
        rintro (h | h)
        · exact hpne' h
        · exact hlast h)]
    rw [hjoin]
    have hxdata : (abspath q env ++ "/" ++ exe).data
        = (List.replicate k '/' ++ joinSlash (w :: ws))
          ++ '/' :: exe.data := by
      rw [string_data_append, string_data_append, hpdata]
      simp [List.append_assoc]
    have hxabs : isabs (abspath q env ++ "/" ++ exe) = true := by
      rw [isabs_true_iff, hxdata,
        take_one_append _ _ (by
          intro h0
          exact hrep_ne (List.append_eq_nil.mp h0).1)]
      exact replicate_slash_take_one k hk _
    show normpath (preJoin (abspath q env ++ "/" ++ exe) env) = _
    rw [show preJoin (abspath q env ++ "/" ++ exe) env
        = abspath q env ++ "/" ++ exe from by
      unfold preJoin
      rw [if_pos hxabs]]
    unfold normpath
    have hcompute : normpathData ((abspath q env ++ "/" ++ exe).data)
        = (abspath q env ++ "/" ++ exe).data := by
      rw [hxdata]
      exact normpathData_ext k hk (w :: ws) (by simp) hclean exe.data
        he0 hes he1 he2
    rw [hcompute, string_mk_data]

/-- C8: `find_dependency` either returns an absolute path (starting with
a slash) ending in `/` followed by the executable name — the
absolutized user-provided directory joined with the executable when a
non-empty directory is given, otherwise the absolutized join of a
`$PATH` entry containing the executable — or fails the whole run with an
error message mentioning the tool name or its executable name.  It never
returns a relative path, and its result type has no `None`. -/
theorem c8_find_dependency (pathProvided : Option String)
    (exe name pathOption : String) (bypass : Bool) (env : OsEnv)
    (fs : FileSys)
    (hcwd : isabs env.cwd = true)
    (he0 : exe.data ≠ []) (hes : ∀ c ∈ exe.data, c ≠ '/')
    (he1 : exe ≠ ".") (he2 : exe ≠ "..") :
    (∀ msg, find_dependency pathProvided exe name pathOption bypass env fs
        = Except.error msg →
      (∃ x y, msg = x ++ name ++ y) ∨ (∃ x y, msg = x ++ exe ++ y))
    ∧ (∀ p, find_dependency pathProvided exe name pathOption bypass env fs
        = Except.ok p →
      (∃ v, p.data = v ++ '/' :: exe.data)
      ∧ p.data.take 1 = ['/']
      ∧ ((∃ q, pathProvided = some q ∧ q ≠ ""
            ∧ p = pathJoin (abspath q env) exe)
        ∨ ∃ d ∈ env.pathVar.splitOn ":",
            fs.pathExists (pathJoin d exe) = true
            ∧ p = abspath (pathJoin d exe) env)) := by
  have he1' : exe.data ≠ ['.'] := fun hh =>
    he1 (by rw [← string_mk_data exe, hh])
  have he2' : exe.data ≠ ['.', '.'] := fun hh =>
    he2 (by rw [← string_mk_data exe, hh])
  have hsearchErr : ∀ msg,
      find_dependency_search exe name pathOption bypass env fs
        = Except.error msg → ∃ x y, msg = x ++ name ++ y := by
    intro msg hmsg
    unfold find_dependency_search at hmsg
    rcases hf : find_exe_in_path exe bypass env fs with _ | d
    · rw [hf] at hmsg
      simp only [Except.error.injEq] at hmsg
      subst hmsg
      refine ⟨"ERROR: Unable to find ", ". Please provide the "
        ++ "full path to " ++ name ++ " with " ++ pathOption ++ ".", ?_⟩
      simp [string_append_assoc]
    · rw [hf] at hmsg
      exact Except.noConfusion hmsg
  have hsearchOk : ∀ p,
      find_dependency_search exe name pathOption bypass env fs
        = Except.ok p →
      (∃ v, p.data = v ++ '/' :: exe.data)
      ∧ p.data.take 1 = ['/']
      ∧ ∃ d ∈ env.pathVar.splitOn ":",
          fs.pathExists (pathJoin d exe) = true
          ∧ p = abspath (pathJoin d exe) env := by
    intro p hp
    unfold find_dependency_search at hp
    rcases hf : find_exe_in_path exe bypass env fs with _ | d
    · rw [hf] at hp
      exact Except.noConfusion hp
    · rw [hf] at hp
      simp only [Except.ok.injEq] at hp
      subst hp
      have hok := abspath_join_ok d exe env hcwd he0 hes he1' he2'
      unfold find_exe_in_path at hf
      have hmem := List.mem_of_find?_eq_some hf
      have hpred := List.find?_some hf
      simp only [Bool.and_eq_true] at hpred
      exact ⟨hok.1, hok.2, d, hmem, hpred.1, rfl⟩
  rcases pathProvided with _ | q
  · refine ⟨fun msg h => Or.inl (hsearchErr msg h), fun p hp => ?_⟩
    obtain ⟨h1, h2, h3⟩ := hsearchOk p hp
    exact ⟨h1, h2, Or.inr h3⟩
  · by_cases hq : q = ""
    · subst hq
      have hred : find_dependency (some "") exe name pathOption bypass env fs
          = find_dependency_search exe name pathOption bypass env fs := by
        simp only [find_dependency]
        rw [if_pos trivial]
      rw [hred]
      refine ⟨fun msg h => Or.inl (hsearchErr msg h), fun p hp => ?_⟩
      obtain ⟨h1, h2, h3⟩ := hsearchOk p hp
      exact ⟨h1, h2, Or.inr h3⟩
    · constructor
      · intro msg hmsg
        simp only [find_dependency] at hmsg
        rw [if_neg hq] at hmsg
        rcases hl : fs.listdir (abspath q env) with _ | files
        · rw [hl] at hmsg
          simp only [Except.error.injEq] at hmsg
          subst hmsg
          exact Or.inl ⟨"ERROR: Unable to list files in ",
            " directory: " ++ abspath q env, by simp [string_append_assoc]⟩
        · rw [hl] at hmsg
          by_cases hin : exe ∈ files
          · simp only [hin, if_true] at hmsg
            exact Except.noConfusion hmsg
          · simp only [hin, if_false, Except.error.injEq] at hmsg
            subst hmsg
            exact Or.inr ⟨"ERROR: The ",
              " executable is not included in the directory: "
                ++ abspath q env, by simp [string_append_assoc]⟩
      · intro p hp
        simp only [find_dependency] at hp
        rw [if_neg hq] at hp
        rcases hl : fs.listdir (abspath q env) with _ | files
        · rw [hl] at hp
          exact Except.noConfusion hp
        · rw [hl] at hp
          by_cases hin : exe ∈ files
          · simp only [hin, if_true, Except.ok.injEq] at hp
            subst hp
            have hok := abspath_join_ok (abspath q env) exe env hcwd
              he0 hes he1' he2'
            have hfix := abspath_fix q exe env hcwd he0 hes he1' he2'
            exact ⟨by rw [hfix] at hok ⊢; exact hok.1,
              by rw [hfix] at hok ⊢; exact hok.2,
              Or.inl ⟨q, rfl, hq, hfix⟩⟩
          · simp only [hin, if_false] at hp
            exact Except.noConfusion hp

/-- Environment for the C8 witness. -/
def c8Env : OsEnv := ⟨"/usr/bin:/bin", "/home/user"⟩

/-- Filesystem for the C8 witness: only `/usr/bin/bmtool` exists and is
executable. -/
def c8Fs : FileSys :=
  ⟨fun s => s = "/usr/bin/bmtool", fun s => s = "/usr/bin/bmtool",
    fun _ => none⟩

/-- Witness for C8, applying it at a concrete environment and
filesystem. -/
theorem c8_find_dependency_witness :
    (∀ msg, find_dependency none "bmtool" "bmtool" "--bmtool-path" false
        c8Env c8Fs = Except.error msg →
      (∃ x y, msg = x ++ "bmtool" ++ y) ∨ (∃ x y, msg = x ++ "bmtool" ++ y))
    ∧ (∀ p, find_dependency none "bmtool" "bmtool" "--bmtool-path" false
        c8Env c8Fs = Except.ok p →
      (∃ v, p.data = v ++ '/' :: "bmtool".data)
      ∧ p.data.take 1 = ['/']
      ∧ ((∃ q, (none : Option String) = some q ∧ q ≠ ""
            ∧ p = pathJoin (abspath q c8Env) "bmtool")
        ∨ ∃ d ∈ c8Env.pathVar.splitOn ":",
            c8Fs.pathExists (pathJoin d "bmtool") = true
            ∧ p = abspath (pathJoin d "bmtool") c8Env)) :=
  c8_find_dependency none "bmtool" "bmtool" "--bmtool-path" false c8Env c8Fs
    (by decide) (by decide) (by decide) (by decide) (by decide)
